import Mathlib

/-!
# Shallow embedding of `micrograd/engine.py` (class `Value`)

The Python engine builds a computational graph of mutable `Value` objects.
We embed the heap of `Value` objects as an arena: a `List` of node records,
where a node's identity is its index (mirroring `Value.__hash__ = id(self)`
and the absence of `__eq__`, so Python set membership is object identity).

Numeric `data`/`grad` fields are embedded as `ℚ`.  Every claim below
exercises the engine only on small dyadic values and the operations
`+ * - / ** relu leaky_relu`, on which exact rational arithmetic coincides
with IEEE double arithmetic, except where a power with zero base and
negative exponent occurs: there CPython raises `ZeroDivisionError`
(`0.0 ** -1` is an error for plain `int`/`float` data, the type produced by
the leaf constructor), which we embed as `Except.error`.

`Value._backward` is a closure set once at construction; we embed it as a
tagged rule carrying the ids of the operands the closure captured
(`BwdRule`).  The `_prev` field is `set(_children)`: children deduplicated
by identity; we fix one iteration order for that set (first operand first).
No claim below depends on the set's iteration order.
-/

namespace Micrograd

/-- One backward-propagation closure (`out._backward` in `engine.py`),
as a tagged rule over the operand ids the Python closure captures.
`leaf` is the constructor default `lambda: None`. -/
inductive BwdRule where
  | leaf : BwdRule
  | add (a b : Nat) : BwdRule
  | mul (a b : Nat) : BwdRule
  | pow (a : Nat) (p : Int) : BwdRule
  | relu (a : Nat) : BwdRule
  | lrelu (a : Nat) (alpha : ℚ) : BwdRule
deriving DecidableEq, Repr

/-- One `Value` object: `data`, `grad`, `_prev` (a set of children ids,
kept as a duplicate-free list), `_op`, and the `_backward` rule. -/
structure Value where
  data : ℚ
  grad : ℚ
  prev : List Nat
  op : String
  rule : BwdRule
deriving DecidableEq, Repr

instance : Inhabited Value := ⟨⟨0, 0, [], "", .leaf⟩⟩

/-- The heap of `Value` objects; a node id is its index. -/
abbrev GraphState := List Value

/-- Dereference a node id. -/
def getNode (s : GraphState) (i : Nat) : Value := s.getD i default

/-- `set((self, other))` for a binary op: identity-based dedup of the
two operand references, in a fixed iteration order. -/
def setPair (a b : Nat) : List Nat := if a = b then [a] else [a, b]

/-- Replace node `i` by `f` of it (mutation of one object on the heap). -/
def mapNode (s : GraphState) (i : Nat) (f : Value → Value) : GraphState :=
  s.set i (f (getNode s i))

/-- `node.grad += d` — the accumulate-only gradient update. -/
def accGrad (s : GraphState) (i : Nat) (d : ℚ) : GraphState :=
  mapNode s i fun v => { v with grad := v.grad + d }

/-- `node.grad = g` — direct assignment (used only to seed the root). -/
def setGrad (s : GraphState) (i : Nat) (g : ℚ) : GraphState :=
  mapNode s i fun v => { v with grad := g }

/-- Allocate a fresh `Value(data, _children, _op)` with `grad = 0.0` and
the given backward rule; returns the new heap and the new object's id. -/
def mkValue (s : GraphState) (d : ℚ) (children : List Nat) (op : String)
    (rule : BwdRule) : GraphState × Nat :=
  (s ++ [{ data := d, grad := 0, prev := children, op := op, rule := rule }], s.length)

/-- The leaf constructor `Value(data)`: no children, no op, identity rule. -/
def mkLeaf (s : GraphState) (d : ℚ) : GraphState × Nat :=
  mkValue s d [] "" .leaf

/-- CPython `x ** n` for numeric `x` and integer `n`: raises
`ZeroDivisionError` when `x == 0` and `n < 0`, otherwise the exact power. -/
def pyPow (x : ℚ) (n : Int) : Except String ℚ :=
  if x = 0 ∧ n < 0 then .error "ZeroDivisionError" else .ok (x ^ n)

/-- `Value.__add__` on two `Value` operands. -/
def vadd (s : GraphState) (a b : Nat) : GraphState × Nat :=
  mkValue s ((getNode s a).data + (getNode s b).data) (setPair a b) "+" (.add a b)

/-- `Value.__add__` with a raw-number right operand: the number is promoted
to a fresh leaf first (`other = Value(other)`). -/
def vaddNum (s : GraphState) (a : Nat) (c : ℚ) : GraphState × Nat :=
  let p := mkLeaf s c
  vadd p.1 a p.2

/-- `Value.__radd__`: `c + x` delegates to `self + other`, i.e. `x + c`. -/
def raddNum (s : GraphState) (c : ℚ) (a : Nat) : GraphState × Nat :=
  vaddNum s a c

/-- `Value.__mul__` on two `Value` operands. -/
def vmul (s : GraphState) (a b : Nat) : GraphState × Nat :=
  mkValue s ((getNode s a).data * (getNode s b).data) (setPair a b) "*" (.mul a b)

/-- `Value.__mul__` with a raw-number right operand (promoted to a leaf). -/
def vmulNum (s : GraphState) (a : Nat) (c : ℚ) : GraphState × Nat :=
  let p := mkLeaf s c
  vmul p.1 a p.2

/-- `Value.__rmul__`: `c * x` delegates to `x * c`. -/
def rmulNum (s : GraphState) (c : ℚ) (a : Nat) : GraphState × Nat :=
  vmulNum s a c

/-- The exponent argument passed to `Value.__pow__`: either a Python
number (embedded for integer-valued exponents) or another `Value` node
(which the `assert isinstance(other, (int, float))` rejects). -/
inductive PowArg where
  | num (n : Int) : PowArg
  | node (i : Nat) : PowArg
deriving DecidableEq, Repr

/-- The message of `__pow__`'s assertion. -/
def powAssertMsg : String := "only supporting int or float powers"

/-- `Value.__pow__`: asserts the exponent is a number, then computes
`self.data ** other` (which itself raises on `0 ** negative`). -/
def vpow (s : GraphState) (a : Nat) (e : PowArg) : Except String (GraphState × Nat) :=
  match e with
  | .node _ => .error powAssertMsg
  | .num n => do
      let d ← pyPow (getNode s a).data n
      .ok (mkValue s d [a] ("**" ++ toString n) (.pow a n))

/-- `Value.__neg__`: `self * -1`. -/
def vneg (s : GraphState) (a : Nat) : GraphState × Nat :=
  vmulNum s a (-1)

/-- `Value.__sub__`: `self + (-other)`. -/
def vsub (s : GraphState) (a b : Nat) : GraphState × Nat :=
  let p := vneg s b
  vadd p.1 a p.2

/-- `Value.__rsub__`: `c - x` is `other + (-self)`, i.e. `(-x) + c`
with the raw `c` promoted through `__radd__`. -/
def rsubNum (s : GraphState) (c : ℚ) (a : Nat) : GraphState × Nat :=
  let p := vneg s a
  raddNum p.1 c p.2

/-- `Value.__truediv__`: `self * other**-1`. -/
def vdiv (s : GraphState) (a b : Nat) : Except String (GraphState × Nat) := do
  let p ← vpow s b (.num (-1))
  .ok (vmul p.1 a p.2)

/-- `Value.__rtruediv__`: `c / x` is `other * self**-1`, i.e. the raw `c`
multiplied onto the node `x ** -1` through `__rmul__`. -/
def rdivNum (s : GraphState) (c : ℚ) (a : Nat) : Except String (GraphState × Nat) := do
  let p ← vpow s a (.num (-1))
  .ok (rmulNum p.1 c p.2)

/-- `Value.relu`: `Value(0 if self.data < 0 else self.data, ...)`. -/
def vrelu (s : GraphState) (a : Nat) : GraphState × Nat :=
  mkValue s (if (getNode s a).data < 0 then 0 else (getNode s a).data) [a] "ReLU" (.relu a)

/-- `Value.leaky_relu`: `Value(self.data if self.data > 0 else alpha * self.data, ...)`. -/
def vlrelu (s : GraphState) (a : Nat) (alpha : ℚ) : GraphState × Nat :=
  mkValue s (if (getNode s a).data > 0 then (getNode s a).data
             else alpha * (getNode s a).data) [a] "LeakyReLU" (.lrelu a alpha)

/-- Run one node's `_backward` closure: each branch performs the same
`+=` updates, in the same order, as the corresponding closure in
`engine.py`, re-reading `out.grad` at each statement as Python does.
The `pow` rule evaluates `self.data**(other-1)` first, which can raise. -/
def runBwd (s : GraphState) (v : Nat) : Except String GraphState :=
  match (getNode s v).rule with
  | .leaf => .ok s
  | .add a b =>
      let s1 := accGrad s a (1 * (getNode s v).grad)
      .ok (accGrad s1 b (1 * (getNode s1 v).grad))
  | .mul a b =>
      let s1 := accGrad s a ((getNode s b).data * (getNode s v).grad)
      .ok (accGrad s1 b ((getNode s1 a).data * (getNode s1 v).grad))
  | .pow a p => do
      let w ← pyPow (getNode s a).data (p - 1)
      .ok (accGrad s a ((p : ℚ) * w * (getNode s v).grad))
  | .relu a =>
      .ok (accGrad s a ((if (getNode s v).data > 0 then 1 else 0) * (getNode s v).grad))
  | .lrelu a alpha =>
      .ok (accGrad s a ((if (getNode s v).data > 0 then 1 else alpha) * (getNode s v).grad))

/-- The recursive `build_topo` of `Value.backward`, with explicit state
`(visited, topo)` and a fuel argument for termination (on every heap the
operations build, children ids are smaller than the parent id, so fuel
`v + 1` makes the recursion identical to Python's unbounded one). -/
def buildTopo (s : GraphState) : Nat → Nat → List Nat × List Nat → List Nat × List Nat
  | 0, _, st => st
  | fuel + 1, v, st =>
      if v ∈ st.1 then st
      else
        let st1 := (getNode s v).prev.foldl (fun acc c => buildTopo s fuel c acc)
          (v :: st.1, st.2)
        (st1.1, st1.2 ++ [v])

/-- The topological ordering `backward` computes from root `r`. -/
def topoOf (s : GraphState) (r : Nat) : List Nat :=
  (buildTopo s (r + 1) r ([], [])).2

/-- `Value.backward`: build the topological order, seed `self.grad = 1.0`
(direct assignment, not accumulation), then run each node's `_backward`
in reverse topological order. -/
def backward (s : GraphState) (r : Nat) : Except String GraphState :=
  (topoOf s r).reverse.foldlM runBwd (setGrad s r 1)

/-- Final gradient of node `i` after `backward` on root `r` (`none` when
the pass raised). -/
def gradAfter (s : GraphState) (r i : Nat) : Option ℚ :=
  (backward s r).toOption.map fun t => (getNode t i).grad

/-! ## Structural predicates -/

/-- Well-formed heap: every node's children have strictly smaller ids.
Every heap the operations build satisfies this, because an operation
only records already-existing nodes as children of the fresh node. -/
def WF (s : GraphState) : Prop :=
  ∀ i, i < s.length → ∀ c ∈ (getNode s i).prev, c < i

instance : DecidablePred WF := fun s =>
  Nat.decidableBallLT s.length fun i _ => ∀ c ∈ (getNode s i).prev, c < i

/-- Reachability from a node along operand (`_prev`) edges; every node
reaches itself. -/
inductive Reach (s : GraphState) : Nat → Nat → Prop where
  | refl (v : Nat) : Reach s v v
  | step {v c x : Nat} : c ∈ (getNode s v).prev → Reach s c x → Reach s v x

/-- Every node of `l` appears strictly after all of its operands:
however `l` is split as `p ++ n :: q`, the operands of `n` lie in `p`. -/
def TopoSorted (s : GraphState) (l : List Nat) : Prop :=
  ∀ p n q, l = p ++ n :: q → ∀ c ∈ (getNode s n).prev, c ∈ p

/-- The ids whose `grad` a backward rule mutates (the operand references
the Python closure captured). -/
def ruleTargets : BwdRule → List Nat
  | .leaf => []
  | .add a b => [a, b]
  | .mul a b => [a, b]
  | .pow a _ => [a]
  | .relu a => [a]
  | .lrelu a _ => [a]

/-- Every node's rule targets only nodes on its own `prev` list — true of
every heap the operations build, since a closure captures exactly the
operands that are also recorded (deduplicated) in `_prev`. -/
def RulesWF (s : GraphState) : Prop :=
  ∀ i, i < s.length → ∀ t ∈ ruleTargets (getNode s i).rule, t ∈ (getNode s i).prev

instance : DecidablePred RulesWF := fun s =>
  Nat.decidableBallLT s.length
    fun i _ => ∀ t ∈ ruleTargets (getNode s i).rule, t ∈ (getNode s i).prev

/-! ## Concrete scenario heaps used by the claims -/

/-- A single leaf `x` with data `d`; `x` has id 0. -/
def leaf1 (d : ℚ) : GraphState := (mkLeaf [] d).1

/-- Two leaves `a`, `b` (ids 0 and 1) with data `da`, `db`. -/
def leaf2 (da db : ℚ) : GraphState := (mkLeaf (mkLeaf [] da).1 db).1

/-- Heap of `y = x + x` on a single leaf `x` with data `d`; `y` has id 1. -/
def xxSum (d : ℚ) : GraphState := (vadd (leaf1 d) 0 0).1

/-- Heap of `q = x*x + x` with `x.data = d`: `x = 0`, `x*x = 1`, `q = 2`. -/
def diamond (d : ℚ) : GraphState := (vadd (vmul (leaf1 d) 0 0).1 1 0).1

/-- Heap of `y = a + b` on two leaves with equal data `d`; `y` has id 2. -/
def twinSum (d : ℚ) : GraphState := (vadd (leaf2 d d) 0 1).1

/-- Heap of `subtract(a, b)` on two leaves: nodes are `a = 0`, `b = 1`,
the promoted `-1` leaf `= 2`, `b * -1 = 3`, and the root `a + (b * -1) = 4`. -/
def subGraph (da db : ℚ) : GraphState := (vsub (leaf2 da db) 0 1).1

/-- The end-to-end scenario heap: `a = 0` (2), `b = 1` (−3), `c = 2` (10),
`e = a*b = 3`, `d = e+c = 4`, `f = 5` (−2), `L = d*f = 6`. -/
def scenarioState : GraphState :=
  let s3 := (vmul (mkLeaf (leaf2 2 (-3)) 10).1 0 1).1
  let s4 := (vadd s3 3 2).1
  let s5 := (mkLeaf s4 (-2)).1
  (vmul s5 4 5).1

/-! ## Definitions following the spec's words (for the refinement claim) -/

/-- Modelled from the spec's table: `negate(a)` is `multiply(a, -1)`,
with the raw `-1` promoted to a leaf. -/
def negate_spec (s : GraphState) (a : Nat) : GraphState × Nat :=
  let p := mkLeaf s (-1)
  vmul p.1 a p.2

/-- Modelled from the spec's table: `subtract(a, b)` is `add(a, negate(b))`. -/
def subtract_spec (s : GraphState) (a b : Nat) : GraphState × Nat :=
  let p := negate_spec s b
  vadd p.1 a p.2

/-- Modelled from the spec's table: `divide(a, b)` is
`multiply(a, power(b, -1))`. -/
def divide_spec (s : GraphState) (a b : Nat) : Except String (GraphState × Nat) := do
  let p ← vpow s b (.num (-1))
  .ok (vmul p.1 a p.2)

/-- The `data` of the node a fallible construction returned (`none` when
construction raised). -/
def dataAfterE (e : Except String (GraphState × Nat)) : Option ℚ :=
  e.toOption.map fun p => (getNode p.1 p.2).data

/-- The final gradient of node `i` after `backward` on the root a fallible
construction returned (`none` when construction or the pass raised). -/
def gradAfterE (e : Except String (GraphState × Nat)) (i : Nat) : Option ℚ :=
  e.toOption.bind fun p => gradAfter p.1 p.2 i

/-- Reflected `c + x` on a single leaf `x` (id 0): `x.__radd__(c)`. -/
def rAddState (c d : ℚ) : GraphState := (raddNum (leaf1 d) c 0).1

/-- Non-reflected `Value(c) + x` on a single leaf `x` (id 0). -/
def lAddState (c d : ℚ) : GraphState := (vadd (mkLeaf (leaf1 d) c).1 1 0).1

/-- Reflected `c * x` on a single leaf `x` (id 0): `x.__rmul__(c)`. -/
def rMulState (c d : ℚ) : GraphState := (rmulNum (leaf1 d) c 0).1

/-- Non-reflected `Value(c) * x` on a single leaf `x` (id 0). -/
def lMulState (c d : ℚ) : GraphState := (vmul (mkLeaf (leaf1 d) c).1 1 0).1

/-- Reflected `c - x` on a single leaf `x` (id 0): `x.__rsub__(c)`. -/
def rSubState (c d : ℚ) : GraphState := (rsubNum (leaf1 d) c 0).1

/-- Non-reflected `Value(c) - x` on a single leaf `x` (id 0). -/
def lSubState (c d : ℚ) : GraphState := (vsub (mkLeaf (leaf1 d) c).1 1 0).1

/-- A small heap whose node 1 is a power node (as `x ** 2` on a leaf with
data 3 builds it, with its grad already accumulated to 10). -/
def powHeap : GraphState :=
  [{ data := 3, grad := 0, prev := [], op := "", rule := .leaf },
   { data := 9, grad := 10, prev := [0], op := "**2", rule := .pow 0 2 }]

/-- The heap `backward` leaves behind when run on `powHeap`'s power node:
the root grad is re-seeded to 1 and the leaf receives `2 * 3^1 * 1 = 6`. -/
def powHeapBack : GraphState :=
  [{ data := 3, grad := 6, prev := [], op := "", rule := .leaf },
   { data := 9, grad := 1, prev := [0], op := "**2", rule := .pow 0 2 }]

/-- Post-conditions of one `build_topo(v)` call from state `(vis, topo)`
ending in `(vis2, topo2)`: the order stays duplicate-free and
topologically sorted, only grows, every appended node is newly visited
and reachable from `v`, and `v` itself ends up in the order. -/
def CallOK (s : GraphState) (v : Nat) (vis topo vis2 topo2 : List Nat) : Prop :=
  topo2.Nodup ∧ TopoSorted s topo2 ∧ (∀ x ∈ topo2, x ∈ vis2) ∧
  (∃ t, topo2 = topo ++ t) ∧
  (∀ x, x ∈ vis2 ↔ (x ∈ vis ∨ x ∈ topo2)) ∧
  (∀ x ∈ topo2, x ∈ topo ∨ (x ∉ vis ∧ Reach s v x)) ∧
  v ∈ topo2

/-! ## Theorems -/

/-- Appending objects to the heap leaves existing nodes unchanged. -/
theorem getNode_append (s t : GraphState) (i : Nat) (h : i < s.length) :
    getNode (s ++ t) i = getNode s i := List.getD_append s t default i h

/-- A freshly appended object is found at the id the allocation returned. -/
theorem getNode_append_self (s : GraphState) (v : Value) :
    getNode (s ++ [v]) s.length = v := by
  simp [getNode, List.getD_append_right s [v] default s.length le_rfl]

/-- Value of a node built by multiplying an existing node by a promoted
raw number. -/
theorem vmulNum_data (s : GraphState) (a : Nat) (c : ℚ) (h : a < s.length) :
    (getNode (vmulNum s a c).1 (vmulNum s a c).2).data = (getNode s a).data * c := by
  simp only [vmulNum, vmul, mkLeaf, mkValue, getNode_append_self]
  rw [getNode_append s _ a h]

theorem WF_prev_lt {s : GraphState} (h : WF s) (i : Nat) :
    ∀ c ∈ (getNode s i).prev, c < i := by
  by_cases hi : i < s.length
  · exact h i hi
  · intro c hc
    have hd : getNode s i = default := List.getD_eq_default _ _ (le_of_not_lt hi)
    rw [hd] at hc
    simp [default] at hc

theorem topoSorted_nil (s : GraphState) : TopoSorted s [] := by
  intro p n q heq
  exact absurd heq (by simp)

theorem topoSorted_append (s : GraphState) (l : List Nat) (n : Nat)
    (h1 : TopoSorted s l) (h2 : ∀ c ∈ (getNode s n).prev, c ∈ l) :
    TopoSorted s (l ++ [n]) := by
  intro p m q heq c hc
  rcases List.eq_nil_or_concat q with rfl | ⟨q2, b, rfl⟩
  · obtain ⟨rfl, hn⟩ := List.append_inj' heq rfl
    obtain rfl : n = m := by simpa using hn
    exact h2 c hc
  · rw [List.concat_eq_append, ← List.cons_append, ← List.append_assoc] at heq
    obtain ⟨hl, hn⟩ := List.append_inj' heq rfl
    exact h1 p m q2 hl c hc

theorem topoSorted_closed (s : GraphState) (l : List Nat) (h : TopoSorted s l)
    (n : Nat) (hn : n ∈ l) : ∀ c ∈ (getNode s n).prev, c ∈ l := by
  intro c hc
  obtain ⟨p, q, rfl⟩ := List.append_of_mem hn
  exact List.mem_append_left _ (h p n q rfl c hc)

theorem reach_mem_of_closed (s : GraphState) (l : List Nat) (h : TopoSorted s l) :
    ∀ v x, Reach s v x → v ∈ l → x ∈ l := by
  intro v x hr
  induction hr with
  | refl w => exact id
  | step hedge hreach ih =>
      intro hv
      exact ih (topoSorted_closed s l h _ hv _ hedge)



theorem buildTopo_fold_spec (s : GraphState) (fuel w : Nat)
    (IH : ∀ v vis topo vis2 topo2,
      buildTopo s fuel v (vis, topo) = (vis2, topo2) →
      v < fuel → topo.Nodup → TopoSorted s topo → (∀ x ∈ topo, x ∈ vis) →
      (∀ x ∈ vis, x ∉ topo → v < x) →
      CallOK s v vis topo vis2 topo2) :
    ∀ (cs : List Nat) (vis topo vis2 topo2 : List Nat),
      cs.foldl (fun acc c => buildTopo s fuel c acc) (vis, topo) = (vis2, topo2) →
      (∀ c ∈ cs, c < w) → w ≤ fuel →
      topo.Nodup → TopoSorted s topo → (∀ x ∈ topo, x ∈ vis) →
      (∀ x ∈ vis, x ∉ topo → w ≤ x) →
      topo2.Nodup ∧ TopoSorted s topo2 ∧ (∀ x ∈ topo2, x ∈ vis2) ∧
      (∃ t, topo2 = topo ++ t) ∧
      (∀ x, x ∈ vis2 ↔ (x ∈ vis ∨ x ∈ topo2)) ∧
      (∀ x ∈ topo2, x ∈ topo ∨ (x ∉ vis ∧ ∃ c ∈ cs, Reach s c x)) ∧
      (∀ c ∈ cs, c ∈ topo2) := by
  intro cs
  induction cs with
  | nil =>
      intro vis topo vis2 topo2 heq _ _ hnd hts hsub _
      simp only [List.foldl_nil] at heq
      injection heq with h1 h2
      subst h1
      subst h2
      refine ⟨hnd, hts, hsub, ⟨[], by simp⟩, fun x => ⟨fun hx => Or.inl hx, ?_⟩,
        fun x hx => Or.inl hx, by simp⟩
      rintro (hx | hx)
      · exact hx
      · exact hsub x hx
  | cons c cs ih =>
      intro vis topo vis2 topo2 heq hlt hwf hnd hts hsub hgray
      simp only [List.foldl_cons] at heq
      rcases hmid : buildTopo s fuel c (vis, topo) with ⟨vis1, topo1⟩
      rw [hmid] at heq
      have hcw : c < w := hlt c (by simp)
      have hcall : CallOK s c vis topo vis1 topo1 :=
        IH c vis topo vis1 topo1 hmid (lt_of_lt_of_le hcw hwf) hnd hts hsub
          (fun x hx hnx => lt_of_lt_of_le hcw (hgray x hx hnx))
      obtain ⟨hnd1, hts1, hsub1, ⟨t1, ht1⟩, hvis1, hnew1, hc1⟩ := hcall
      -- gray set is preserved by the first call
      have hgray1 : ∀ x ∈ vis1, x ∉ topo1 → w ≤ x := by
        intro x hx hnx
        rcases (hvis1 x).1 hx with hx0 | hx0
        · refine hgray x hx0 fun hxt => hnx ?_
          rw [ht1]; exact List.mem_append_left _ hxt
        · exact absurd hx0 hnx
      have hrest := ih vis1 topo1 vis2 topo2 heq (fun d hd => hlt d (by simp [hd])) hwf
        hnd1 hts1 hsub1 hgray1
      obtain ⟨hnd2, hts2, hsub2, ⟨t2, ht2⟩, hvis2, hnew2, hcs2⟩ := hrest
      refine ⟨hnd2, hts2, hsub2, ⟨t1 ++ t2, by rw [ht2, ht1, List.append_assoc]⟩, ?_, ?_, ?_⟩
      · intro x
        constructor
        · intro hx
          rcases (hvis2 x).1 hx with hx0 | hx0
          · rcases (hvis1 x).1 hx0 with hx1 | hx1
            · exact Or.inl hx1
            · exact Or.inr (ht2 ▸ List.mem_append_left _ hx1)
          · exact Or.inr hx0
        · rintro (hx | hx)
          · exact (hvis2 x).2 (Or.inl ((hvis1 x).2 (Or.inl hx)))
          · exact (hvis2 x).2 (Or.inr hx)
      · intro x hx
        rcases hnew2 x hx with hx0 | ⟨hxv, cc, hcc, hrc⟩
        · rcases hnew1 x hx0 with hx1 | ⟨hxv, hrc⟩
          · exact Or.inl hx1
          · exact Or.inr ⟨hxv, c, by simp, hrc⟩
        · refine Or.inr ⟨fun hxv0 => hxv ((hvis1 x).2 (Or.inl hxv0)), cc, by simp [hcc], hrc⟩
      · intro d hd
        rcases List.mem_cons.1 hd with rfl | hd2
        · exact ht2 ▸ List.mem_append_left _ hc1
        · exact hcs2 d hd2


theorem buildTopo_spec (s : GraphState) (hWF : WF s) :
    ∀ (fuel v : Nat) (vis topo vis2 topo2 : List Nat),
      buildTopo s fuel v (vis, topo) = (vis2, topo2) →
      v < fuel → topo.Nodup → TopoSorted s topo → (∀ x ∈ topo, x ∈ vis) →
      (∀ x ∈ vis, x ∉ topo → v < x) →
      CallOK s v vis topo vis2 topo2 := by
  intro fuel
  induction fuel with
  | zero => intro v vis topo vis2 topo2 _ hv; exact absurd hv (by omega)
  | succ fuel ih =>
      intro v vis topo vis2 topo2 heq hv hnd hts hsub hgray
      rw [buildTopo] at heq
      by_cases hmem : v ∈ vis
      · rw [if_pos hmem] at heq
        injection heq with h1 h2
        subst h1
        subst h2
        have hvt : v ∈ topo := by
          by_contra hvt
          exact lt_irrefl v (hgray v hmem hvt)
        refine ⟨hnd, hts, hsub, ⟨[], by simp⟩, fun x => ⟨fun hx => Or.inl hx, ?_⟩,
          fun x hx => Or.inl hx, hvt⟩
        rintro (hx | hx)
        · exact hx
        · exact hsub x hx
      · rw [if_neg hmem] at heq
        rcases hfold : (getNode s v).prev.foldl (fun acc c => buildTopo s fuel c acc)
            (v :: vis, topo) with ⟨visF, topoF⟩
        rw [hfold] at heq
        injection heq with h1 h2
        subst h1
        have hsubF : ∀ x ∈ topo, x ∈ v :: vis := fun x hx => by
          simp [hsub x hx]
        have hgrayF : ∀ x ∈ v :: vis, x ∉ topo → v ≤ x := by
          intro x hx hnx
          rcases List.mem_cons.1 hx with rfl | hx2
          · exact le_rfl
          · exact le_of_lt (hgray x hx2 hnx)
        have hfold2 := buildTopo_fold_spec s fuel v ih (getNode s v).prev
          (v :: vis) topo visF topoF hfold (WF_prev_lt hWF v) (by omega)
          hnd hts hsubF hgrayF
        obtain ⟨hndF, htsF, hsubFF, ⟨t, htF⟩, hvisF, hnewF, hcsF⟩ := hfold2
        subst h2
        have hvnF : v ∉ topoF := by
          intro hvF
          rcases hnewF v hvF with hvt | ⟨hnv, _⟩
          · exact hmem (hsub v hvt)
          · exact hnv (by simp)
        refine ⟨?_, ?_, ?_, ?_, ?_, ?_, ?_⟩
        · exact List.nodup_append.2 ⟨hndF, List.nodup_singleton v, by
            intro x hx hxv
            rcases List.mem_singleton.1 hxv with rfl
            exact hvnF hx⟩
        · exact topoSorted_append s topoF v htsF hcsF
        · intro x hx
          rcases List.mem_append.1 hx with hx2 | hx2
          · exact hsubFF x hx2
          · rcases List.mem_singleton.1 hx2 with rfl
            exact (hvisF x).2 (Or.inl (by simp))
        · exact ⟨t ++ [v], by rw [htF, List.append_assoc]⟩
        · intro x
          constructor
          · intro hx
            rcases (hvisF x).1 hx with hx2 | hx2
            · rcases List.mem_cons.1 hx2 with rfl | hx3
              · exact Or.inr (List.mem_append_right _ (by simp))
              · exact Or.inl hx3
            · exact Or.inr (List.mem_append_left _ hx2)
          · rintro (hx | hx)
            · exact (hvisF x).2 (Or.inl (by simp [hx]))
            · rcases List.mem_append.1 hx with hx2 | hx2
              · exact (hvisF x).2 (Or.inr hx2)
              · rcases List.mem_singleton.1 hx2 with rfl
                exact (hvisF x).2 (Or.inl (by simp))
        · intro x hx
          rcases List.mem_append.1 hx with hx2 | hx2
          · rcases hnewF x hx2 with hxt | ⟨hxv, c, hc, hrc⟩
            · exact Or.inl hxt
            · refine Or.inr ⟨fun hxv2 => hxv (by simp [hxv2]), Reach.step hc hrc⟩
          · rcases List.mem_singleton.1 hx2 with rfl
            exact Or.inr ⟨hmem, Reach.refl _⟩
        · exact List.mem_append_right _ (by simp)


/-- Claim C2: for every well-formed graph (as every graph built by the
operation set is) and every root `r`, the sequence the topological sort
inside `backward` produces contains a node exactly once if and only if it
is reachable from `r` along operand edges (it is duplicate-free), and
every operand of the node at position `i` occurs at a position strictly
smaller than `i` — including graphs where a sub-node is reachable along
multiple paths. -/
theorem C2_topological_sort (s : GraphState) (hWF : WF s) (r : Nat) :
    (topoOf s r).Nodup ∧
    (∀ x, x ∈ topoOf s r ↔ Reach s r x) ∧
    (∀ i (hi : i < (topoOf s r).length),
      ∀ c ∈ (getNode s ((topoOf s r).get ⟨i, hi⟩)).prev,
      ∃ j, ∃ hj : j < (topoOf s r).length, j < i ∧ (topoOf s r).get ⟨j, hj⟩ = c) := by
  rcases heq : buildTopo s (r+1) r ([], []) with ⟨visR, topoR⟩
  have htopo : topoOf s r = topoR := by rw [topoOf, heq]
  have hspec := buildTopo_spec s hWF (r+1) r [] [] visR topoR heq (by omega)
    List.nodup_nil (topoSorted_nil s) (by simp) (by simp)
  obtain ⟨hnd, hts, _, _, _, hnew, hr⟩ := hspec
  rw [htopo]
  refine ⟨hnd, ?_, ?_⟩
  · intro x
    constructor
    · intro hx
      rcases hnew x hx with hx2 | ⟨_, hrc⟩
      · exact absurd hx2 (List.not_mem_nil x)
      · exact hrc
    · intro hx
      exact reach_mem_of_closed s topoR hts r x hx hr
  · intro i hi c hc
    have hsplit : topoR = topoR.take i ++ topoR.get ⟨i, hi⟩ :: topoR.drop (i + 1) := by
      conv_lhs => rw [← List.take_append_drop i topoR]
      rw [List.drop_eq_getElem_cons hi, List.get_eq_getElem]
    have hcp := hts (topoR.take i) (topoR.get ⟨i, hi⟩) (topoR.drop (i + 1)) hsplit c hc
    obtain ⟨j, hj, hget⟩ := List.getElem_of_mem hcp
    have hjlen : j < (topoR.take i).length := hj
    rw [List.length_take] at hjlen
    have hjlt : j < i := lt_of_lt_of_le hjlen (min_le_left _ _)
    have hjlen2 : j < topoR.length := lt_of_lt_of_le hjlen (min_le_right _ _)
    refine ⟨j, hjlen2, hjlt, ?_⟩
    have h3 : (topoR.take i)[j] = topoR[j] := List.getElem_take topoR
    rw [List.get_eq_getElem, ← h3]
    exact hget


/-- Witness for C2 on the concrete two-node power heap. -/
theorem C2_topological_sort_witness :
    WF powHeap ∧
    ((topoOf powHeap 1).Nodup ∧
     (∀ x, x ∈ topoOf powHeap 1 ↔ Reach powHeap 1 x) ∧
     (∀ i (hi : i < (topoOf powHeap 1).length),
       ∀ c ∈ (getNode powHeap ((topoOf powHeap 1).get ⟨i, hi⟩)).prev,
       ∃ j, ∃ hj : j < (topoOf powHeap 1).length, j < i ∧
         (topoOf powHeap 1).get ⟨j, hj⟩ = c)) :=
  ⟨by decide, C2_topological_sort powHeap (by decide) 1⟩


theorem getNode_set_ne (s : GraphState) {i j : Nat} (v : Value) (h : i ≠ j) :
    getNode (s.set i v) j = getNode s j := by
  simp [getNode, List.getD, List.getElem?_set_ne h]

theorem getNode_set_self (s : GraphState) {i : Nat} (v : Value) (h : i < s.length) :
    getNode (s.set i v) i = v := by
  simp [getNode, List.getD, List.getElem?_set_self, h]

theorem getNode_mapNode_rule (t : GraphState) (i : Nat) (f : Value → Value)
    (hf : ∀ v, (f v).rule = v.rule) (j : Nat) :
    (getNode (mapNode t i f) j).rule = (getNode t j).rule := by
  by_cases hij : i = j
  · subst hij
    by_cases hi : i < t.length
    · rw [mapNode, getNode_set_self t _ hi, hf]
    · rw [mapNode, List.set_eq_of_length_le (le_of_not_lt hi)]
  · rw [mapNode, getNode_set_ne t _ hij]

theorem getNode_mapNode_grad_ne (t : GraphState) (i : Nat) (f : Value → Value)
    {j : Nat} (h : i ≠ j) :
    (getNode (mapNode t i f) j).grad = (getNode t j).grad := by
  rw [mapNode, getNode_set_ne t _ h]

theorem getNode_accGrad_rule (t : GraphState) (i : Nat) (d : ℚ) (j : Nat) :
    (getNode (accGrad t i d) j).rule = (getNode t j).rule := by
  rw [accGrad]
  exact getNode_mapNode_rule t i (fun v => { v with grad := v.grad + d }) (fun _ => rfl) j

theorem getNode_accGrad_grad_ne (t : GraphState) (i : Nat) (d : ℚ) {j : Nat} (h : i ≠ j) :
    (getNode (accGrad t i d) j).grad = (getNode t j).grad := by
  rw [accGrad]
  exact getNode_mapNode_grad_ne t i (fun v => { v with grad := v.grad + d }) h

theorem runBwd_rule_eq {t t2 : GraphState} {x : Nat} (hrun : runBwd t x = .ok t2) :
    ∀ j, (getNode t2 j).rule = (getNode t j).rule := by
  intro j
  cases hrule : (getNode t x).rule with
  | leaf =>
      simp only [runBwd, hrule] at hrun
      injection hrun with h
      subst h
      rfl
  | add a b =>
      simp only [runBwd, hrule] at hrun
      injection hrun with h
      subst h
      rw [getNode_accGrad_rule, getNode_accGrad_rule]
  | mul a b =>
      simp only [runBwd, hrule] at hrun
      injection hrun with h
      subst h
      rw [getNode_accGrad_rule, getNode_accGrad_rule]
  | pow a p =>
      simp only [runBwd, hrule] at hrun
      rcases hp : pyPow (getNode t a).data (p - 1) with e | w
      · rw [hp] at hrun
        simp [bind, Except.bind] at hrun
      · rw [hp] at hrun
        simp only [bind, Except.bind] at hrun
        injection hrun with h
        subst h
        rw [getNode_accGrad_rule]
  | relu a =>
      simp only [runBwd, hrule] at hrun
      injection hrun with h
      subst h
      rw [getNode_accGrad_rule]
  | lrelu a alpha =>
      simp only [runBwd, hrule] at hrun
      injection hrun with h
      subst h
      rw [getNode_accGrad_rule]

theorem runBwd_grad_preserved {t t2 : GraphState} {x r : Nat}
    (hrun : runBwd t x = .ok t2) (hr : r ∉ ruleTargets (getNode t x).rule) :
    (getNode t2 r).grad = (getNode t r).grad := by
  cases hrule : (getNode t x).rule with
  | leaf =>
      simp only [runBwd, hrule] at hrun
      injection hrun with h
      subst h
      rfl
  | add a b =>
      rw [hrule, ruleTargets] at hr
      simp only [List.mem_cons, List.mem_singleton] at hr
      push_neg at hr
      simp only [runBwd, hrule] at hrun
      injection hrun with h
      subst h
      rw [getNode_accGrad_grad_ne _ _ _ (Ne.symm hr.2.1),
        getNode_accGrad_grad_ne _ _ _ (Ne.symm hr.1)]
  | mul a b =>
      rw [hrule, ruleTargets] at hr
      simp only [List.mem_cons, List.mem_singleton] at hr
      push_neg at hr
      simp only [runBwd, hrule] at hrun
      injection hrun with h
      subst h
      rw [getNode_accGrad_grad_ne _ _ _ (Ne.symm hr.2.1),
        getNode_accGrad_grad_ne _ _ _ (Ne.symm hr.1)]
  | pow a p =>
      rw [hrule, ruleTargets] at hr
      simp only [List.mem_singleton] at hr
      simp only [runBwd, hrule] at hrun
      rcases hp : pyPow (getNode t a).data (p - 1) with e | w
      · rw [hp] at hrun
        simp [bind, Except.bind] at hrun
      · rw [hp] at hrun
        simp only [bind, Except.bind] at hrun
        injection hrun with h
        subst h
        rw [getNode_accGrad_grad_ne _ _ _ (Ne.symm hr)]
  | relu a =>
      rw [hrule, ruleTargets] at hr
      simp only [List.mem_singleton] at hr
      simp only [runBwd, hrule] at hrun
      injection hrun with h
      subst h
      rw [getNode_accGrad_grad_ne _ _ _ (Ne.symm hr)]
  | lrelu a alpha =>
      rw [hrule, ruleTargets] at hr
      simp only [List.mem_singleton] at hr
      simp only [runBwd, hrule] at hrun
      injection hrun with h
      subst h
      rw [getNode_accGrad_grad_ne _ _ _ (Ne.symm hr)]


theorem backward_fold_grad (s : GraphState) (r : Nat) :
    ∀ (xs : List Nat) (t t2 : GraphState),
      xs.foldlM runBwd t = .ok t2 →
      (∀ j, (getNode t j).rule = (getNode s j).rule) →
      (∀ x ∈ xs, r ∉ ruleTargets (getNode s x).rule) →
      (getNode t2 r).grad = (getNode t r).grad ∧
      (∀ j, (getNode t2 j).rule = (getNode s j).rule) := by
  intro xs
  induction xs with
  | nil =>
      intro t t2 heq hrules _
      simp only [List.foldlM, pure, Except.pure] at heq
      injection heq with h
      subst h
      exact ⟨rfl, hrules⟩
  | cons x xs ih =>
      intro t t2 heq hrules htarg
      simp only [List.foldlM, bind, Except.bind] at heq
      rcases hrun : runBwd t x with e | t1
      · rw [hrun] at heq
        simp at heq
      · rw [hrun] at heq
        have hstep : (getNode t1 r).grad = (getNode t r).grad := by
          refine runBwd_grad_preserved hrun ?_
          rw [hrules x]
          exact htarg x (by simp)
        have hrules1 : ∀ j, (getNode t1 j).rule = (getNode s j).rule := fun j => by
          rw [runBwd_rule_eq hrun j, hrules j]
        have hrest := ih t1 t2 heq hrules1 (fun y hy => htarg y (by simp [hy]))
        exact ⟨hrest.1.trans hstep, hrest.2⟩

theorem getNode_setGrad_rule (t : GraphState) (i : Nat) (g : ℚ) (j : Nat) :
    (getNode (setGrad t i g) j).rule = (getNode t j).rule := by
  rw [setGrad]
  exact getNode_mapNode_rule t i (fun v => { v with grad := g }) (fun _ => rfl) j

/-- Claim C4: `backward(R)` requires only that `R` is a valid node, and
seeds `R.grad` to exactly 1 by overwriting: whatever grad `R` held
before, it is 1 immediately after the seeding assignment, and still 1
after a completed pass whenever no node reachable from `R` lists `R` as
an operand (with the structural fact, true of every built graph, that a
rule only targets nodes on its own operand list). -/
theorem C4_backward_seeds_root (s : GraphState) (r : Nat) (h : r < s.length) :
    (getNode (setGrad s r 1) r).grad = 1 ∧
    (∀ s2, backward s r = .ok s2 → RulesWF s →
      (∀ x ∈ topoOf s r, r ∉ (getNode s x).prev) →
      (getNode s2 r).grad = 1) := by
  constructor
  · rw [setGrad, mapNode, getNode_set_self s _ h]
  · intro s2 hback hrw hnoback
    rw [backward] at hback
    have htarg : ∀ x ∈ (topoOf s r).reverse, r ∉ ruleTargets (getNode s x).rule := by
      intro x hx
      rw [List.mem_reverse] at hx
      by_cases hxl : x < s.length
      · intro hrt
        exact hnoback x hx (hrw x hxl r hrt)
      · have hd : getNode s x = default := List.getD_eq_default _ _ (le_of_not_lt hxl)
        rw [hd]
        intro hrt
        simp [default, ruleTargets] at hrt
    have hfold := backward_fold_grad s r (topoOf s r).reverse (setGrad s r 1) s2 hback
      (getNode_setGrad_rule s r 1) htarg
    rw [hfold.1, setGrad, mapNode, getNode_set_self s _ h]



/-- Witness for C4 on the concrete two-node power heap. -/
theorem C4_backward_seeds_root_witness :
    (getNode (setGrad powHeap 1 1) 1).grad = 1 ∧ (getNode powHeapBack 1).grad = 1 :=
  ⟨(C4_backward_seeds_root powHeap 1 (by decide)).1,
   (C4_backward_seeds_root powHeap 1 (by decide)).2 powHeapBack
     (by norm_num [backward, topoOf, buildTopo, runBwd, accGrad, setGrad, mapNode, getNode,
       powHeap, powHeapBack, pyPow, Except.toOption, List.foldlM, pure, Except.pure, bind,
       Except.bind])
     (by decide) (by decide)⟩

/-- Claim C1: gradient contributions accumulate per use-site when one node
is used as several operands.  For a leaf `x` with data 3, backward on
`y = x + x` yields `x.grad = 2`; for a leaf `x` with data 2 and
`q = x*x + x` (whose data is 6), backward on `q` yields `x.grad = 5`;
in both traversals the shared node `x` is visited exactly once. -/
theorem C1_shared_node_accumulation :
    gradAfter (xxSum 3) 1 0 = some 2 ∧ (topoOf (xxSum 3) 1).count 0 = 1 ∧
    (getNode (diamond 2) 2).data = 6 ∧
    gradAfter (diamond 2) 2 0 = some 5 ∧ (topoOf (diamond 2) 2).count 0 = 1 := by
  refine ⟨?_, ?_, ?_, ?_, ?_⟩ <;>
    norm_num [gradAfter, backward, topoOf, buildTopo, runBwd, accGrad, setGrad, mapNode,
      getNode, mkLeaf, mkValue, vadd, vmul, setPair, leaf1, xxSum, diamond,
      Except.toOption, List.count, List.foldlM, pure, Except.pure, bind, Except.bind]

/-- Claim C3: for the concrete graph with leaves `a = 2`, `b = -3`,
`c = 10`, `f = -2` and interior nodes `e = a*b`, `d = e+c`, `L = d*f`
(node ids 0, 1, 2, 5 for the leaves, 3, 4, 6 for `e`, `d`, `L`),
`L.data = -8`, and backward on `L` yields `a.grad = 6`, `b.grad = -4`,
`c.grad = -2`, `d.grad = -2`, `e.grad = -2`, `f.grad = 4`. -/
theorem C3_end_to_end_scenario :
    (getNode scenarioState 6).data = -8 ∧
    gradAfter scenarioState 6 0 = some 6 ∧
    gradAfter scenarioState 6 1 = some (-4) ∧
    gradAfter scenarioState 6 2 = some (-2) ∧
    gradAfter scenarioState 6 4 = some (-2) ∧
    gradAfter scenarioState 6 3 = some (-2) ∧
    gradAfter scenarioState 6 5 = some 4 := by
  refine ⟨?_, ?_, ?_, ?_, ?_, ?_, ?_⟩ <;>
    norm_num [gradAfter, backward, topoOf, buildTopo, runBwd, accGrad, setGrad, mapNode,
      getNode, mkLeaf, mkValue, vadd, vmul, setPair, leaf2, scenarioState,
      Except.toOption, List.foldlM, pure, Except.pure, bind, Except.bind]

/-- Claim C5, counterexample: dividing by a node whose data is zero does
not propagate an IEEE infinity — it fails.  With leaves `a` (data 1) and
`b` (data 0), `divide(a, b)` raises `ZeroDivisionError` at construction,
because division is `self * other**-1` and CPython rejects `0.0 ** -1`
for plain `int`/`float` data. -/
theorem C5_div_zero_cex : vdiv (leaf2 1 0) 0 1 = .error "ZeroDivisionError" := rfl

/-- Claim C5, amended: `divide(a, b)` fails with `ZeroDivisionError` at
construction time exactly when `b.data = 0`, and succeeds otherwise; the
remaining modeled operations are total functions and cannot fail. -/
theorem C5_div_zero_amended (s : GraphState) (a b : Nat) :
    (vdiv s a b = .error "ZeroDivisionError" ↔ (getNode s b).data = 0) ∧
    ((getNode s b).data ≠ 0 → ∃ t, vdiv s a b = .ok t) := by
  by_cases h : (getNode s b).data = 0 <;>
    simp [vdiv, vpow, pyPow, h, bind, Except.bind]

/-- Witness for C5's amended theorem at leaves with data 1 and 5. -/
theorem C5_div_zero_amended_witness :
    ((vdiv (leaf2 1 5) 0 1 = .error "ZeroDivisionError") ↔ (getNode (leaf2 1 5) 1).data = 0) ∧
    (∃ t, vdiv (leaf2 1 5) 0 1 = .ok t) :=
  ⟨(C5_div_zero_amended (leaf2 1 5) 0 1).1,
   (C5_div_zero_amended (leaf2 1 5) 0 1).2 (by decide)⟩

/-- Claim C6, counterexample: with a numeric exponent `power` can still
fail — on a leaf with data 0 and exponent −1 it raises
`ZeroDivisionError` at construction time, so "when `p` is a real number,
power succeeds" is false as stated. -/
theorem C6_pow_cex : vpow (leaf1 0) 0 (.num (-1)) = .error "ZeroDivisionError" := rfl

/-- Claim C6, amended: `power(a, p)` fails with the invalid-argument
assertion exactly when the exponent is another node rather than a number;
for a numeric exponent `n` it succeeds with value `a.data ^ n` unless
`a.data = 0` with `n < 0`, which raises `ZeroDivisionError` instead; and
the backward rule of a power node contributes `p * a.data^(p-1) * g` to
`a.grad` (provided `a.data^(p-1)` does not itself hit the zero-base,
negative-exponent error). -/
theorem C6_pow_contract (s : GraphState) (a : Nat) :
    (∀ i, vpow s a (.node i) = .error powAssertMsg) ∧
    (∀ n : Int, vpow s a (.num n) ≠ .error powAssertMsg) ∧
    (∀ n : Int, ¬((getNode s a).data = 0 ∧ n < 0) →
      vpow s a (.num n) =
        .ok (mkValue s ((getNode s a).data ^ n) [a] ("**" ++ toString n) (.pow a n))) ∧
    (∀ n : Int, (getNode s a).data = 0 → n < 0 →
      vpow s a (.num n) = .error "ZeroDivisionError") ∧
    (∀ v a2 p, (getNode s v).rule = .pow a2 p → ¬((getNode s a2).data = 0 ∧ p - 1 < 0) →
      runBwd s v =
        .ok (accGrad s a2 ((p : ℚ) * (getNode s a2).data ^ (p - 1) * (getNode s v).grad))) := by
  refine ⟨fun i => rfl, ?_, ?_, ?_, ?_⟩
  · intro n
    by_cases h : (getNode s a).data = 0 ∧ n < 0 <;>
      simp [vpow, pyPow, h, bind, Except.bind, powAssertMsg]
  · intro n h
    simp [vpow, pyPow, h, bind, Except.bind]
  · intro n h1 h2
    simp [vpow, pyPow, h1, h2, bind, Except.bind]
  · intro v a2 p h h2
    simp only [runBwd, h, pyPow, if_neg h2, bind, Except.bind]

/-- Witness for C6's amended theorem: a node exponent asserts, exponent 2
on data 3 succeeds, exponent −1 on data 0 raises, and the backward rule
of `powHeap`'s power node fires with the closed-form derivative. -/
theorem C6_pow_contract_witness :
    vpow (leaf1 3) 0 (.node 5) = .error powAssertMsg ∧
    vpow (leaf1 3) 0 (.num 2) =
      .ok (mkValue (leaf1 3) ((getNode (leaf1 3) 0).data ^ (2:ℤ)) [0] ("**" ++ toString (2:ℤ))
        (.pow 0 2)) ∧
    vpow (leaf1 0) 0 (.num (-1)) = .error "ZeroDivisionError" ∧
    runBwd powHeap 1 =
      .ok (accGrad powHeap 0 (((2:ℤ) : ℚ) * (getNode powHeap 0).data ^ ((2:ℤ) - 1) *
        (getNode powHeap 1).grad)) :=
  ⟨(C6_pow_contract (leaf1 3) 0).1 5,
   (C6_pow_contract (leaf1 3) 0).2.2.1 2 (by decide),
   (C6_pow_contract (leaf1 0) 0).2.2.2.1 (-1) (by decide) (by decide),
   (C6_pow_contract powHeap 0).2.2.2.2 1 0 2 (by decide) (by decide)⟩

/-- Claim C7: node identity, not value equality, governs construction and
traversal.  Two leaf-constructor calls with the same value yield distinct
nodes; for `y = a + b` on two distinct leaves with equal data, backward
visits both (each ends with grad 1) and each appears once in the
traversal; a single node used as both operands of `x + x` is visited
exactly once. -/
theorem C7_identity_semantics (s : GraphState) (d : ℚ) :
    (mkLeaf s d).2 ≠ (mkLeaf (mkLeaf s d).1 d).2 ∧
    gradAfter (twinSum d) 2 0 = some 1 ∧
    gradAfter (twinSum d) 2 1 = some 1 ∧
    (topoOf (twinSum d) 2).count 0 = 1 ∧
    (topoOf (twinSum d) 2).count 1 = 1 ∧
    (topoOf (xxSum d) 1).count 0 = 1 := by
  refine ⟨?_, ?_, ?_, ?_, ?_, ?_⟩ <;>
    norm_num [gradAfter, backward, topoOf, buildTopo, runBwd, accGrad, setGrad, mapNode,
      getNode, mkLeaf, mkValue, vadd, setPair, leaf1, leaf2, twinSum, xxSum,
      Except.toOption, List.count, List.foldlM, pure, Except.pure, bind, Except.bind]

set_option maxHeartbeats 1600000 in
/-- Claim C8: the derived operations refine the spec's compositions of
primitives — `negate(a)` is `multiply(a, -1)`, `subtract(a,b)` is
`add(a, negate(b))`, `divide(a,b)` is `multiply(a, power(b, -1))` — and
satisfy the direct formulas: negate's value is `-a.data`; subtract's
value is `a.data - b.data` and backward contributes `+g` to `a.grad` and
`-g` to `b.grad` (with `g = 1` at the root); divide's value is
`a.data / b.data` when `b.data ≠ 0`. -/
theorem C8_derived_ops_refinement (s : GraphState) (a b : Nat) (da db : ℚ) :
    vneg s a = negate_spec s a ∧
    vsub s a b = subtract_spec s a b ∧
    vdiv s a b = divide_spec s a b ∧
    (a < s.length → (getNode (vneg s a).1 (vneg s a).2).data = -(getNode s a).data) ∧
    (getNode (subGraph da db) 4).data = da - db ∧
    gradAfter (subGraph da db) 4 0 = some 1 ∧
    gradAfter (subGraph da db) 4 1 = some (-1) ∧
    (db ≠ 0 → dataAfterE (vdiv (leaf2 da db) 0 1) = some (da / db)) := by
  refine ⟨rfl, rfl, rfl, ?_, ?_, ?_, ?_, ?_⟩
  · intro h
    have h2 := vmulNum_data s a (-1) h
    simpa [vneg, mul_neg_one] using h2
  · norm_num [subGraph, vsub, vneg, vmulNum, vmul, vadd, mkLeaf, mkValue, getNode, leaf2,
      setPair]
    ring
  · norm_num [gradAfter, backward, topoOf, buildTopo, runBwd, accGrad, setGrad, mapNode,
      getNode, mkLeaf, mkValue, vadd, vmul, vneg, vmulNum, vsub, setPair, leaf2, subGraph,
      Except.toOption, List.foldlM, pure, Except.pure, bind, Except.bind]
  · norm_num [gradAfter, backward, topoOf, buildTopo, runBwd, accGrad, setGrad, mapNode,
      getNode, mkLeaf, mkValue, vadd, vmul, vneg, vmulNum, vsub, setPair, leaf2, subGraph,
      Except.toOption, List.foldlM, pure, Except.pure, bind, Except.bind]
  · intro hd
    norm_num [dataAfterE, vdiv, vpow, pyPow, hd, leaf2, mkLeaf, mkValue, getNode, vmul,
      setPair, Except.toOption, bind, Except.bind, div_eq_mul_inv, zpow_neg_one]

/-- Witness for C8 at concrete leaves: negate's value rule at data 2, and
divide's value 7/5 at leaves 7 and 5. -/
theorem C8_derived_ops_refinement_witness :
    (getNode (vneg (leaf2 2 5) 0).1 (vneg (leaf2 2 5) 0).2).data
      = -(getNode (leaf2 2 5) 0).data ∧
    dataAfterE (vdiv (leaf2 7 5) 0 1) = some ((7:ℚ) / 5) :=
  ⟨(C8_derived_ops_refinement (leaf2 2 5) 0 1 7 5).2.2.2.1 (by decide),
   (C8_derived_ops_refinement (leaf2 2 5) 0 1 7 5).2.2.2.2.2.2.2 (by decide)⟩

set_option maxHeartbeats 1600000 in
/-- Claim C9: reflected operand forms agree with the non-reflected forms.
For every raw number `c` and leaf `x` with data `d`: `c + x`, `c * x`,
`c - x` produce a root with the same data as `Value(c) + x`,
`Value(c) * x`, `Value(c) - x`, and backward through either graph gives
`x` the same gradient (1, `c`, −1 respectively); `c / x` and
`Value(c) / x` agree likewise when `d ≠ 0`, both giving `x` the gradient
`-c / d²`. -/
theorem C9_reflected_forms (c d : ℚ) :
    (getNode (rAddState c d) 2).data = (getNode (lAddState c d) 2).data ∧
    gradAfter (rAddState c d) 2 0 = some 1 ∧ gradAfter (lAddState c d) 2 0 = some 1 ∧
    (getNode (rMulState c d) 2).data = (getNode (lMulState c d) 2).data ∧
    gradAfter (rMulState c d) 2 0 = some c ∧ gradAfter (lMulState c d) 2 0 = some c ∧
    (getNode (rSubState c d) 4).data = (getNode (lSubState c d) 4).data ∧
    gradAfter (rSubState c d) 4 0 = some (-1) ∧ gradAfter (lSubState c d) 4 0 = some (-1) ∧
    (d ≠ 0 →
      dataAfterE (rdivNum (leaf1 d) c 0) = dataAfterE (vdiv (mkLeaf (leaf1 d) c).1 1 0) ∧
      gradAfterE (rdivNum (leaf1 d) c 0) 0 = gradAfterE (vdiv (mkLeaf (leaf1 d) c).1 1 0) 0 ∧
      gradAfterE (rdivNum (leaf1 d) c 0) 0 = some (-c / d ^ 2)) := by
  refine ⟨?_, ?_, ?_, ?_, ?_, ?_, ?_, ?_, ?_, ?_⟩
  · norm_num [rAddState, lAddState, raddNum, vaddNum, vadd, mkLeaf, mkValue, getNode, leaf1,
      setPair]
    ring
  · norm_num [rAddState, raddNum, vaddNum, gradAfter, backward, topoOf, buildTopo, runBwd,
      accGrad, setGrad, mapNode, getNode, mkLeaf, mkValue, vadd, setPair, leaf1,
      Except.toOption, List.foldlM, pure, Except.pure, bind, Except.bind]
  · norm_num [lAddState, gradAfter, backward, topoOf, buildTopo, runBwd,
      accGrad, setGrad, mapNode, getNode, mkLeaf, mkValue, vadd, setPair, leaf1,
      Except.toOption, List.foldlM, pure, Except.pure, bind, Except.bind]
  · norm_num [rMulState, lMulState, rmulNum, vmulNum, vmul, mkLeaf, mkValue, getNode, leaf1,
      setPair]
    ring
  · norm_num [rMulState, rmulNum, vmulNum, gradAfter, backward, topoOf, buildTopo, runBwd,
      accGrad, setGrad, mapNode, getNode, mkLeaf, mkValue, vmul, setPair, leaf1,
      Except.toOption, List.foldlM, pure, Except.pure, bind, Except.bind]
  · norm_num [lMulState, gradAfter, backward, topoOf, buildTopo, runBwd,
      accGrad, setGrad, mapNode, getNode, mkLeaf, mkValue, vmul, setPair, leaf1,
      Except.toOption, List.foldlM, pure, Except.pure, bind, Except.bind]
  · norm_num [rSubState, lSubState, rsubNum, raddNum, vaddNum, vsub, vneg, vmulNum, vadd,
      vmul, mkLeaf, mkValue, getNode, leaf1, setPair]
    ring
  · norm_num [rSubState, rsubNum, raddNum, vaddNum, vneg, vmulNum, gradAfter, backward,
      topoOf, buildTopo, runBwd, accGrad, setGrad, mapNode, getNode, mkLeaf, mkValue, vadd,
      vmul, setPair, leaf1, Except.toOption, List.foldlM, pure, Except.pure, bind, Except.bind]
  · norm_num [lSubState, vsub, vneg, vmulNum, gradAfter, backward,
      topoOf, buildTopo, runBwd, accGrad, setGrad, mapNode, getNode, mkLeaf, mkValue, vadd,
      vmul, setPair, leaf1, Except.toOption, List.foldlM, pure, Except.pure, bind, Except.bind]
  · intro hd
    refine ⟨?_, ?_, ?_⟩ <;>
      norm_num [dataAfterE, gradAfterE, rdivNum, vdiv, vpow, pyPow, hd, rmulNum, vmulNum,
        vmul, mkLeaf, mkValue, getNode, leaf1, setPair, gradAfter, backward, topoOf,
        buildTopo, runBwd, accGrad, setGrad, mapNode, Except.toOption, Option.bind,
        List.foldlM, pure, Except.pure, bind, Except.bind, div_eq_mul_inv, zpow_ofNat] <;>
      ring

/-- Witness for C9's division part at `c = 3`, `d = 2`. -/
theorem C9_reflected_forms_witness :
    dataAfterE (rdivNum (leaf1 2) 3 0) = dataAfterE (vdiv (mkLeaf (leaf1 2) 3).1 1 0) ∧
    gradAfterE (rdivNum (leaf1 2) 3 0) 0 = gradAfterE (vdiv (mkLeaf (leaf1 2) 3).1 1 0) 0 ∧
    gradAfterE (rdivNum (leaf1 2) 3 0) 0 = some (-3 / 2 ^ 2) :=
  (C9_reflected_forms 3 2).2.2.2.2.2.2.2.2.2 (by decide)

/-- Claim C10: at input exactly zero, `relu` has value 0 and its backward
rule contributes exactly 0 to the operand's grad whatever the upstream
gradient `g` is (the rule tests `out.data > 0`), while `leaky_relu` also
has value 0 but its backward rule contributes `alpha * g` — the two
activations disagree at the boundary. -/
theorem C10_activation_boundary (alpha g : ℚ) :
    (getNode (vrelu (leaf1 0) 0).1 1).data = 0 ∧
    ((runBwd (setGrad (vrelu (leaf1 0) 0).1 1 g) 1).toOption.map fun t => (getNode t 0).grad)
      = some 0 ∧
    (getNode (vlrelu (leaf1 0) 0 alpha).1 1).data = 0 ∧
    ((runBwd (setGrad (vlrelu (leaf1 0) 0 alpha).1 1 g) 1).toOption.map fun t =>
      (getNode t 0).grad) = some (alpha * g) := by
  refine ⟨?_, ?_, ?_, ?_⟩ <;>
    norm_num [vrelu, vlrelu, leaf1, mkLeaf, mkValue, getNode, setGrad, mapNode, accGrad,
      runBwd, Except.toOption, pure, Except.pure, bind, Except.bind]

end Micrograd
